import Mathlib

/-!
# Senciro: the ring-driven connection engine (`src/senciro.c`)

A shallow embedding of the C engine and of the interface of the completion
ring it drives, followed by the properties of the engine's operations.

Conventions of the embedding.

* A C `int` is an `Int`; a conversion to an unsigned type of width `w` is
  `x % 2 ^ w`, made explicit where the source converts.
* A `conn_t*` is an address (`conn_ptr`, `0` is `NULL`); a function that takes a
  `conn_t* conn` takes the address and the record stored there, and returns the
  record as the call leaves it.
* A `const char* data` is the sequence of bytes readable from the pointer.
* Behaviour that C leaves undefined (a store through a null pointer, a copy
  past the end of `buffer`) is a `Fault`; a function that can run into it
  returns `Except Fault _`.
* `exit(1)` after `perror` is the outcome `exited`.
* The ring (`struct io_uring` and the liburing calls) and the system calls are
  not part of the repository: they are modelled by their documented contract,
  the results of the system calls being read from an environment record, and
  the answer of the kernel to a submission being an argument of the call that
  submits.
-/

namespace Senciro

/-! ## Data model -/

/-- The constant `BUFFER_SIZE` of the source. -/
def BUFFER_SIZE : Nat := 2048

/-- One byte of memory. -/
abbrev Byte := Fin 256

/-- The enumeration `op_type`. -/
inductive op_type where
  | ACCEPT
  | READ
  | WRITE
  deriving DecidableEq, Repr

/-- The peer address `struct sockaddr_in`. -/
structure sockaddr_in where
  sin_family : Nat
  sin_port : Nat
  sin_addr : Nat
  deriving DecidableEq, Repr

/-- The value of `sizeof(struct sockaddr_in)`. -/
def SIZEOF_SOCKADDR_IN : Nat := 16

/-- The connection record `conn_t`; `buffer` is the array `char buffer[BUFFER_SIZE]`. -/
structure conn_t where
  type : op_type
  fd : Int
  buffer : Fin BUFFER_SIZE → Byte
  addr : sockaddr_in
  addr_len : Nat

/-- The address of a connection record (`conn_t*`). -/
abbrev conn_ptr := Nat

/-- The null pointer. -/
def NULL : conn_ptr := 0

/-- Undefined behaviour the C code can run into. -/
inductive Fault where
  | null_deref
  | out_of_bounds
  deriving DecidableEq, Repr

/-- Conversion of an `int` to `size_t` (64 bits, as on the targets the ring
interface exists for). -/
def size_t_of_int (x : Int) : Nat := (x % 2 ^ 64).toNat

/-- Conversion of an `int` to `unsigned` (32 bits). -/
def unsigned_of_int (x : Int) : Nat := (x % 2 ^ 32).toNat

/-- The call `memcpy(conn->buffer, data, n)`: the first `n` bytes of `data` go to
positions `0 .. n-1` of the array; a copy of more than `BUFFER_SIZE` bytes runs
past the end of the array. -/
def memcpy (buffer : Fin BUFFER_SIZE → Byte) (data : Nat → Byte) (n : Nat) :
    Except Fault (Fin BUFFER_SIZE → Byte) :=
  if n ≤ BUFFER_SIZE then
    .ok (fun i => if i.val < n then data i.val else buffer i)
  else
    .error Fault.out_of_bounds

/-! ## The completion ring (interface of liburing) -/

/-- The operation described on a submission-queue entry. A `conn_ptr` argument
stands for the field of that record the source passes: `&conn->addr`,
`&conn->addr_len`, or the start of `conn->buffer`. -/
inductive uring_op where
  | accept (fd : Int) (addr : conn_ptr) (addrlen : conn_ptr) (flags : Int)
  | read (fd : Int) (buf : conn_ptr) (nbytes : Nat) (offset : Nat)
  | write (fd : Int) (buf : conn_ptr) (nbytes : Nat) (offset : Nat)
  deriving DecidableEq, Repr

/-- A submission-queue entry. `op` is `none` while the slot has been obtained
but not prepared. `seq` is the value of the ring's tail counter when the slot
was handed out; the program never reads it. -/
structure io_uring_sqe where
  op : Option uring_op
  user_data : Nat
  seq : Nat
  deriving DecidableEq, Repr

/-- A completion-queue entry: the tag of the operation and its result code.
`seq` records which submission it answers; the program never reads it. -/
structure io_uring_cqe where
  user_data : Nat
  res : Int
  seq : Nat
  deriving DecidableEq, Repr

/-- The ring: `entries` submission slots, the entries obtained and not yet
submitted (`sq`, oldest first), the operations handed to the kernel and not yet
completed (`inflight`), and the completion queue (`cq`, head first). -/
structure io_uring where
  entries : Nat
  sqe_tail : Nat
  sq : List io_uring_sqe
  inflight : List io_uring_sqe
  cq : List io_uring_cqe
  deriving DecidableEq, Repr

/-- The engine state `struct engine_state`. -/
structure engine_state where
  ring : io_uring
  server_fd : Int
  deriving DecidableEq, Repr

/-- The error code `EAGAIN`. -/
def EAGAIN : Int := 11

/-- The call `io_uring_get_sqe`: the next free slot (its index in `sq`), or a
null pointer when the submission queue is full. -/
def io_uring_get_sqe (ring : io_uring) : Option Nat × io_uring :=
  if ring.sq.length < ring.entries then
    (some ring.sq.length,
      { ring with
        sqe_tail := ring.sqe_tail + 1
        sq := ring.sq ++ [{ op := none, user_data := 0, seq := ring.sqe_tail }] })
  else
    (none, ring)

/-- Rewrite the entry at index `i` of a submission queue. -/
def sq_update (f : io_uring_sqe → io_uring_sqe) : Nat → List io_uring_sqe → List io_uring_sqe
  | _, [] => []
  | 0, e :: es => f e :: es
  | i + 1, e :: es => e :: sq_update f i es

/-- A store through an `io_uring_sqe*`: a fault when the pointer is null. -/
def sqe_store (ring : io_uring) (sqe : Option Nat) (f : io_uring_sqe → io_uring_sqe) :
    Except Fault io_uring :=
  match sqe with
  | none => .error Fault.null_deref
  | some i => .ok { ring with sq := sq_update f i ring.sq }

/-- The call `io_uring_prep_accept(sqe, fd, addr, addrlen, flags)`. -/
def io_uring_prep_accept (ring : io_uring) (sqe : Option Nat) (fd : Int)
    (addr addrlen : conn_ptr) (flags : Int) : Except Fault io_uring :=
  sqe_store ring sqe (fun e => { e with op := some (uring_op.accept fd addr addrlen flags) })

/-- The call `io_uring_prep_read(sqe, fd, buf, nbytes, offset)`. -/
def io_uring_prep_read (ring : io_uring) (sqe : Option Nat) (fd : Int)
    (buf : conn_ptr) (nbytes : Nat) (offset : Nat) : Except Fault io_uring :=
  sqe_store ring sqe (fun e => { e with op := some (uring_op.read fd buf nbytes offset) })

/-- The call `io_uring_prep_write(sqe, fd, buf, nbytes, offset)`. -/
def io_uring_prep_write (ring : io_uring) (sqe : Option Nat) (fd : Int)
    (buf : conn_ptr) (nbytes : Nat) (offset : Nat) : Except Fault io_uring :=
  sqe_store ring sqe (fun e => { e with op := some (uring_op.write fd buf nbytes offset) })

/-- The call `io_uring_sqe_set_data(sqe, data)`. -/
def io_uring_sqe_set_data (ring : io_uring) (sqe : Option Nat) (data : conn_ptr) :
    Except Fault io_uring :=
  sqe_store ring sqe (fun e => { e with user_data := data })

/-- The call `io_uring_submit`. `enter` is what the kernel answers when it is
asked to take the queued entries: a negative error code when it refuses (no
entry is taken and they stay queued), otherwise the number of entries it takes,
oldest first, at most those queued. The call returns the error code, or the
number of entries taken. -/
def io_uring_submit (ring : io_uring) (enter : Int) : Int × io_uring :=
  if enter < 0 then
    (enter, ring)
  else
    let n := min enter.toNat ring.sq.length
    ((n : Int),
      { ring with sq := ring.sq.drop n, inflight := ring.inflight ++ ring.sq.take n })

/-- The call `io_uring_peek_cqe`: `0` and the head of the completion queue, or
`-EAGAIN` when the queue is empty; the ring is not changed. -/
def io_uring_peek_cqe (ring : io_uring) : Int × Option io_uring_cqe :=
  match ring.cq with
  | [] => (-EAGAIN, none)
  | c :: _ => (0, some c)

/-- The call `io_uring_cqe_get_data`. -/
def io_uring_cqe_get_data (cqe : io_uring_cqe) : conn_ptr := cqe.user_data

/-- The call `io_uring_cqe_seen`: the head of the completion queue advances by
one entry. -/
def io_uring_cqe_seen (ring : io_uring) (_cqe : io_uring_cqe) : io_uring :=
  { ring with cq := ring.cq.tail }

/-! ## Operation submission -/

/-- The function `queue_accept`; `enter` is the answer of the kernel to the
`io_uring_submit` of this call, a value the function discards. -/
def queue_accept (state : engine_state) (conn : conn_ptr) (c : conn_t) (enter : Int) :
    Except Fault (engine_state × conn_t) :=
  let (sqe, ring) := io_uring_get_sqe state.ring
  let c := { c with type := op_type.ACCEPT }
  let c := { c with addr_len := SIZEOF_SOCKADDR_IN }
  do
    let ring ← io_uring_prep_accept ring sqe state.server_fd conn conn 0
    let ring ← io_uring_sqe_set_data ring sqe conn
    let (_, ring) := io_uring_submit ring enter
    pure ({ state with ring := ring }, c)

/-- The function `queue_read`; `enter` is the answer of the kernel to the
`io_uring_submit` of this call, a value the function discards. -/
def queue_read (state : engine_state) (conn : conn_ptr) (c : conn_t) (enter : Int) :
    Except Fault (engine_state × conn_t) :=
  let (sqe, ring) := io_uring_get_sqe state.ring
  let c := { c with type := op_type.READ }
  do
    let ring ← io_uring_prep_read ring sqe c.fd conn (BUFFER_SIZE - 1) 0
    let ring ← io_uring_sqe_set_data ring sqe conn
    let (_, ring) := io_uring_submit ring enter
    pure ({ state with ring := ring }, c)

/-- The length `queue_write` works with after `if (len > BUFFER_SIZE) len = BUFFER_SIZE;`. -/
def clamp_len (len : Int) : Int :=
  if len > (BUFFER_SIZE : Int) then (BUFFER_SIZE : Int) else len

/-- The function `queue_write`; `enter` is the answer of the kernel to the
`io_uring_submit` of this call, a value the function discards. -/
def queue_write (state : engine_state) (conn : conn_ptr) (c : conn_t)
    (data : Nat → Byte) (len : Int) (enter : Int) : Except Fault (engine_state × conn_t) :=
  let (sqe, ring) := io_uring_get_sqe state.ring
  let c := { c with type := op_type.WRITE }
  let len := clamp_len len
  do
    let buffer ← memcpy c.buffer data (size_t_of_int len)
    let c := { c with buffer := buffer }
    let ring ← io_uring_prep_write ring sqe c.fd conn (unsigned_of_int len) 0
    let ring ← io_uring_sqe_set_data ring sqe conn
    let (_, ring) := io_uring_submit ring enter
    pure ({ state with ring := ring }, c)

/-! ## Completion polling -/

/-- The function `poll_completion`. The argument `res` is the value of the
caller's variable `*res` before the call; the result is the pointer returned,
the value of `*res` after the call, and the engine state. -/
def poll_completion (state : engine_state) (res : Int) :
    Except Fault (conn_ptr × Int × engine_state) :=
  let (ret, cqe) := io_uring_peek_cqe state.ring
  if ret < 0 then
    .ok (NULL, res, state)
  else
    match cqe with
    | none => .error Fault.null_deref
    | some cqe =>
      let conn := io_uring_cqe_get_data cqe
      let res := cqe.res
      .ok (conn, res, { state with ring := io_uring_cqe_seen state.ring cqe })

/-! ## Listening socket setup and engine initialisation -/

/-- How a call that may terminate the process ends: it returns a value, the
process exits with a status after printing a diagnostic with `perror`, or it
runs into undefined behaviour. -/
inductive Outcome (α : Type) where
  | returned (a : α)
  | exited (status : Int) (diagnostic : String)
  | fault (f : Fault)

/-- The results of the system and library calls made during initialisation:
the value each call returns for the arguments it is given. `malloc` is the
content of the block obtained for the engine state, `none` for a null result. -/
structure SysEnv where
  socket : Int
  setsockopt_reuseaddr : Int → Int
  setsockopt_reuseport : Int → Int
  bind : Int → Nat → Int
  listen : Int → Int → Int
  malloc : Option engine_state
  queue_init : Nat → Int

/-- The call `htons(port)`: the port as a 16-bit value. -/
def htons (port : Int) : Nat := (port % 2 ^ 16).toNat

/-- The function `setup_server_socket`; where the source closes the socket
before `exit(1)` only the exit is recorded. -/
def setup_server_socket (env : SysEnv) (port : Int) : Outcome Int :=
  let server_fd := env.socket
  if server_fd < 0 then
    .exited 1 "socket"
  else if env.setsockopt_reuseaddr server_fd ≠ 0 then
    .exited 1 "setsockopt reuseaddr"
  else if env.setsockopt_reuseport server_fd ≠ 0 then
    .exited 1 "setsockopt reuseport"
  else if env.bind server_fd (htons port) < 0 then
    .exited 1 "bind"
  else if env.listen server_fd 4096 < 0 then
    .exited 1 "listen"
  else
    .returned server_fd

/-- The call `io_uring_queue_init(entries, ring, flags)`: on success (`0`) the
ring is set up empty, the kernel rounding the number of submission slots up to
a power of two; on failure (a negative code) the memory of the ring is left as
it was. -/
def io_uring_queue_init (env : SysEnv) (entries : Nat) (ring : io_uring) (_flags : Nat) :
    Int × io_uring :=
  let rc := env.queue_init entries
  if rc < 0 then
    (rc, ring)
  else
    (0, { entries := Nat.nextPowerOfTwo entries, sqe_tail := 0, sq := [], inflight := [],
          cq := [] })

/-- The function `init_engine`. -/
def init_engine (env : SysEnv) (port : Int) (queue_depth : Int) : Outcome engine_state :=
  let state := env.malloc
  match setup_server_socket env port with
  | .exited status diagnostic => .exited status diagnostic
  | .fault f => .fault f
  | .returned server_fd =>
    match state with
    | none => .fault Fault.null_deref
    | some st =>
      let st := { st with server_fd := server_fd }
      let (_, ring) := io_uring_queue_init env (unsigned_of_int queue_depth) st.ring 0
      .returned { st with ring := ring }

/-! ## The engine driven by a caller, with the kernel completing operations -/

/-- The engine state together with the connection records in memory. -/
structure World where
  state : engine_state
  heap : conn_ptr → conn_t

/-- What can happen to the engine: the caller submits an operation for a
record (`enter` is the answer of the kernel to that submission), the kernel
completes the operation at position `i` of those it holds with result `res`
(for a read, `payload` are the bytes received; for an accept, `peer` is the
peer address), the caller polls, or the caller stores a socket descriptor in a
record. -/
inductive Action where
  | accept (conn : conn_ptr) (enter : Int)
  | read (conn : conn_ptr) (enter : Int)
  | write (conn : conn_ptr) (data : Nat → Byte) (len : Int) (enter : Int)
  | complete (i : Nat) (res : Int) (payload : Nat → Byte) (peer : sockaddr_in)
  | poll (res : Int)
  | store_fd (conn : conn_ptr) (fd : Int)

/-- The record and operation kind of a submission; `none` for the other actions. -/
def Action.submission : Action → Option (conn_ptr × op_type)
  | .accept conn _ => some (conn, op_type.ACCEPT)
  | .read conn _ => some (conn, op_type.READ)
  | .write conn _ _ _ => some (conn, op_type.WRITE)
  | _ => none

/-- The answer of the kernel to a submission; `none` for the other actions. -/
def Action.answer : Action → Option Int
  | .accept _ enter => some enter
  | .read _ enter => some enter
  | .write _ _ _ enter => some enter
  | _ => none

/-- The memory a completed operation leaves behind: a read that transferred
`res > 0` bytes wrote them at the start of the buffer it was given, a
successful accept wrote the peer address and its length, a write wrote nothing. -/
def kernel_effect (heap : conn_ptr → conn_t) (op : Option uring_op) (res : Int)
    (payload : Nat → Byte) (peer : sockaddr_in) : conn_ptr → conn_t :=
  match op with
  | some (uring_op.read _ buf nbytes _) =>
    if 0 < res then
      Function.update heap buf
        { heap buf with
          buffer := fun j =>
            if j.val < min res.toNat nbytes then payload j.val else (heap buf).buffer j }
    else heap
  | some (uring_op.accept _ addr addrlen _) =>
    if 0 ≤ res then
      let heap1 := Function.update heap addr { heap addr with addr := peer }
      Function.update heap1 addrlen { heap1 addrlen with addr_len := SIZEOF_SOCKADDR_IN }
    else heap
  | _ => heap

/-- The kernel completes the operation at position `i` of those it holds: the
operation leaves `inflight` and a completion entry carrying its tag and the
result is appended to the completion queue. -/
def kernel_complete (w : World) (i : Nat) (res : Int) (payload : Nat → Byte)
    (peer : sockaddr_in) : World :=
  match w.state.ring.inflight.get? i with
  | none => w
  | some e =>
    { state :=
        { w.state with
          ring :=
            { w.state.ring with
              inflight := w.state.ring.inflight.eraseIdx i
              cq := w.state.ring.cq ++ [{ user_data := e.user_data, res := res, seq := e.seq }] } }
      heap := kernel_effect w.heap e.op res payload peer }

/-- One action on the world. -/
def step (w : World) : Action → Except Fault World
  | .accept conn enter => do
    let (st, c) ← queue_accept w.state conn (w.heap conn) enter
    pure { state := st, heap := Function.update w.heap conn c }
  | .read conn enter => do
    let (st, c) ← queue_read w.state conn (w.heap conn) enter
    pure { state := st, heap := Function.update w.heap conn c }
  | .write conn data len enter => do
    let (st, c) ← queue_write w.state conn (w.heap conn) data len enter
    pure { state := st, heap := Function.update w.heap conn c }
  | .complete i res payload peer => pure (kernel_complete w i res payload peer)
  | .poll res => do
    let (_, _, st) ← poll_completion w.state res
    pure { w with state := st }
  | .store_fd conn fd =>
    pure { w with heap := Function.update w.heap conn { w.heap conn with fd := fd } }

/-- A sequence of actions, stopping at the first fault. -/
def run (w : World) : List Action → Except Fault World
  | [] => pure w
  | a :: as => do
    let w1 ← step w a
    run w1 as

/-- Every entry of the ring carries a sequence number below the tail counter. -/
def ring_wf (ring : io_uring) : Prop :=
  (∀ e ∈ ring.sq, e.seq < ring.sqe_tail) ∧
  (∀ e ∈ ring.inflight, e.seq < ring.sqe_tail) ∧
  (∀ c ∈ ring.cq, c.seq < ring.sqe_tail)

/-- The ring after a call obtained a slot, described the entry `e` on it and
submitted with the kernel answering `enter`. -/
def ring_after (ring : io_uring) (e : io_uring_sqe) (enter : Int) : io_uring :=
  (io_uring_submit { ring with sqe_tail := ring.sqe_tail + 1, sq := ring.sq ++ [e] } enter).2

/-- The submission numbered `n` carries the tag `r` wherever it is in the ring,
and the record `r` is marked with the kind `k`. -/
def tagged (n : Nat) (r : conn_ptr) (k : op_type) (w : World) : Prop :=
  n < w.state.ring.sqe_tail ∧
  (∀ e ∈ w.state.ring.sq, e.seq = n → e.user_data = r) ∧
  (∀ e ∈ w.state.ring.inflight, e.seq = n → e.user_data = r) ∧
  (∀ c ∈ w.state.ring.cq, c.seq = n → c.user_data = r) ∧
  (w.heap r).type = k

/-! ## Sample inputs -/

/-- A ring of eight slots right after initialisation. -/
def fresh_ring : io_uring :=
  { entries := 8, sqe_tail := 0, sq := [], inflight := [], cq := [] }

/-- An engine whose listening socket is descriptor 3. -/
def sample_state : engine_state := { ring := fresh_ring, server_fd := 3 }

/-- A connection record on descriptor 7 with a zeroed buffer. -/
def sample_conn : conn_t :=
  { type := op_type.ACCEPT, fd := 7, buffer := fun _ => 0,
    addr := { sin_family := 0, sin_port := 0, sin_addr := 0 }, addr_len := 0 }

/-- The bytes of the text pong, followed by zeroes. -/
def sample_data : Nat → Byte := fun i =>
  if i = 0 then 112 else if i = 1 then 111 else if i = 2 then 110 else if i = 3 then 103 else 0

/-- The error code `EBUSY`. -/
def EBUSY : Int := 16

/-- An engine whose ring has a single slot, right after initialisation. -/
def one_slot_state : engine_state :=
  { ring := { entries := 1, sqe_tail := 0, sq := [], inflight := [], cq := [] },
    server_fd := 3 }

/-- An engine whose ring has a single slot, taken by a read for the record at
address 64 that the kernel refused to take. -/
def full_state : engine_state :=
  { ring := { entries := 1, sqe_tail := 1,
              sq := [{ op := some (uring_op.read 7 64 2047 0), user_data := 64, seq := 0 }],
              inflight := [], cq := [] },
    server_fd := 3 }

/-- An engine with two completions pending: a read of four bytes on the record
at address 64, then a failed write on the record at address 128. -/
def pending_state : engine_state :=
  { ring := { entries := 8, sqe_tail := 2, sq := [], inflight := [],
              cq := [{ user_data := 64, res := 4, seq := 0 },
                     { user_data := 128, res := -32, seq := 1 }] },
    server_fd := 3 }

/-- The content of a block of memory that `io_uring_queue_init` never set up. -/
def stale_ring : io_uring :=
  { entries := 0, sqe_tail := 57005, sq := [], inflight := [], cq := [] }

/-- The error code `EINVAL`. -/
def EINVAL : Int := 22

/-- An environment in which every step of the socket setup succeeds (the
socket is descriptor 3) and the ring set-up follows the kernel's rule for the
depth: none and more than 32768 entries are refused with `-EINVAL`. -/
def sample_env : SysEnv :=
  { socket := 3
    setsockopt_reuseaddr := fun _ => 0
    setsockopt_reuseport := fun _ => 0
    bind := fun _ _ => 0
    listen := fun _ _ => 0
    malloc := some { ring := stale_ring, server_fd := 0 }
    queue_init := fun entries => if entries = 0 ∨ 32768 < entries then -EINVAL else 0 }

/-- A world with the sample record at every address. -/
def sample_world : World := { state := sample_state, heap := fun _ => sample_conn }

/-- The sample world after a read was submitted for the record at address 64
and taken by the kernel. -/
def sample_world_read : World :=
  { state :=
      { sample_state with
        ring := { fresh_ring with
          sqe_tail := 1
          inflight := [{ op := some (uring_op.read 7 64 2047 0), user_data := 64, seq := 0 }] } }
    heap := Function.update sample_world.heap 64 { sample_conn with type := op_type.READ } }

/-- The peer address used in the sample run. -/
def sample_peer : sockaddr_in := { sin_family := 2, sin_port := 0, sin_addr := 0 }

/-- The sample world after the kernel completed that read with four bytes. -/
def sample_world_done : World :=
  kernel_complete sample_world_read 0 4 sample_data sample_peer

/-! # Lemmas -/

/-! ## Submission: what a call returns -/

/-- Rewriting the entry just appended to a submission queue. -/
theorem sq_update_length_append (f : io_uring_sqe → io_uring_sqe) (l : List io_uring_sqe)
    (e : io_uring_sqe) : sq_update f l.length (l ++ [e]) = l ++ [f e] := by
  induction l with
  | nil => rfl
  | cons a as ih => simp [sq_update, ih]

/-- A submission changes neither the tail counter, the completion queue nor
the number of slots. -/
theorem ring_after_fields (ring : io_uring) (e : io_uring_sqe) (enter : Int) :
    (ring_after ring e enter).sqe_tail = ring.sqe_tail + 1 ∧
      (ring_after ring e enter).cq = ring.cq ∧
      (ring_after ring e enter).entries = ring.entries := by
  unfold ring_after io_uring_submit
  split <;> simp

/-- An entry still queued after a submission was queued before or is the new one. -/
theorem ring_after_sq_mem (ring : io_uring) (e x : io_uring_sqe) (enter : Int)
    (h : x ∈ (ring_after ring e enter).sq) : x ∈ ring.sq ∨ x = e := by
  unfold ring_after io_uring_submit at h
  split at h
  · simpa using h
  · have := List.mem_of_mem_drop h
    simpa using this

/-- An operation the kernel holds after a submission was held or queued before,
or is the new one. -/
theorem ring_after_inflight_mem (ring : io_uring) (e x : io_uring_sqe) (enter : Int)
    (h : x ∈ (ring_after ring e enter).inflight) :
    x ∈ ring.inflight ∨ x ∈ ring.sq ∨ x = e := by
  unfold ring_after io_uring_submit at h
  split at h
  · exact Or.inl h
  · simp only [List.mem_append] at h
    rcases h with h | h
    · exact Or.inl h
    · have := List.mem_of_mem_take h
      simp only [List.mem_append, List.mem_singleton] at this
      exact Or.inr this

/-- Whatever the kernel answers, a submission loses no entry and keeps their
order: those the kernel holds followed by those queued are the previous ones
followed by the new one. -/
theorem ring_after_on_ring (ring : io_uring) (e : io_uring_sqe) (enter : Int) :
    (ring_after ring e enter).inflight ++ (ring_after ring e enter).sq =
      ring.inflight ++ (ring.sq ++ [e]) := by
  unfold ring_after io_uring_submit
  split
  · rfl
  · simp [List.append_assoc, List.take_append_drop]

/-- When the kernel takes every queued entry nothing stays queued. -/
theorem ring_after_accepted (ring : io_uring) (e : io_uring_sqe) (enter : Int)
    (h : (ring.sq.length : Int) < enter) :
    (ring_after ring e enter).sq = [] ∧
      (ring_after ring e enter).inflight = ring.inflight ++ (ring.sq ++ [e]) := by
  have h0 : ¬ enter < 0 := by omega
  have h1 : min enter.toNat (ring.sq ++ [e]).length = (ring.sq ++ [e]).length := by
    apply Nat.min_eq_right
    simp only [List.length_append, List.length_singleton]
    omega
  unfold ring_after io_uring_submit
  simp only [h0, if_false, h1, List.drop_length, List.take_length, and_self]

/-- When the kernel refuses, the new entry stays queued behind the others. -/
theorem ring_after_refused (ring : io_uring) (e : io_uring_sqe) (enter : Int)
    (h : enter < 0) :
    (ring_after ring e enter).sq = ring.sq ++ [e] ∧
      (ring_after ring e enter).inflight = ring.inflight := by
  unfold ring_after io_uring_submit
  simp [h]

/-- What `queue_accept` returns when a slot is free. -/
theorem queue_accept_ok (state : engine_state) (conn : conn_ptr) (c : conn_t) (enter : Int)
    (h : state.ring.sq.length < state.ring.entries) :
    queue_accept state conn c enter =
      .ok ({ state with
              ring := ring_after state.ring
                { op := some (uring_op.accept state.server_fd conn conn 0)
                  user_data := conn
                  seq := state.ring.sqe_tail } enter },
           { c with type := op_type.ACCEPT, addr_len := SIZEOF_SOCKADDR_IN }) := by
  simp [queue_accept, io_uring_get_sqe, h, io_uring_prep_accept, io_uring_sqe_set_data,
    sqe_store, sq_update_length_append, ring_after, bind, Except.bind, pure, Except.pure]

/-- What `queue_read` returns when a slot is free. -/
theorem queue_read_ok (state : engine_state) (conn : conn_ptr) (c : conn_t) (enter : Int)
    (h : state.ring.sq.length < state.ring.entries) :
    queue_read state conn c enter =
      .ok ({ state with
              ring := ring_after state.ring
                { op := some (uring_op.read c.fd conn (BUFFER_SIZE - 1) 0)
                  user_data := conn
                  seq := state.ring.sqe_tail } enter },
           { c with type := op_type.READ }) := by
  simp [queue_read, io_uring_get_sqe, h, io_uring_prep_read, io_uring_sqe_set_data,
    sqe_store, sq_update_length_append, ring_after, bind, Except.bind, pure, Except.pure]

/-- What `queue_write` returns when a slot is free and the copy fits the buffer. -/
theorem queue_write_ok (state : engine_state) (conn : conn_ptr) (c : conn_t)
    (data : Nat → Byte) (len : Int) (enter : Int)
    (h : state.ring.sq.length < state.ring.entries)
    (hn : size_t_of_int (clamp_len len) ≤ BUFFER_SIZE) :
    queue_write state conn c data len enter =
      .ok ({ state with
              ring := ring_after state.ring
                { op := some (uring_op.write c.fd conn (unsigned_of_int (clamp_len len)) 0)
                  user_data := conn
                  seq := state.ring.sqe_tail } enter },
           { c with
             type := op_type.WRITE
             buffer := fun i =>
               if i.val < size_t_of_int (clamp_len len) then data i.val else c.buffer i }) := by
  simp [queue_write, io_uring_get_sqe, h, memcpy, hn, io_uring_prep_write, io_uring_sqe_set_data,
    sqe_store, sq_update_length_append, ring_after, bind, Except.bind, pure, Except.pure]

/-- For a length that is not negative both conversions of the clamped length
are the smaller of the length and the capacity. -/
theorem clamp_len_nonneg (len : Int) (h : 0 ≤ len) :
    size_t_of_int (clamp_len len) = min len.toNat BUFFER_SIZE ∧
    unsigned_of_int (clamp_len len) = min len.toNat BUFFER_SIZE := by
  unfold size_t_of_int unsigned_of_int clamp_len BUFFER_SIZE
  split <;> constructor <;> omega

/-- A call of `queue_accept` that returns had a free slot. -/
theorem queue_accept_slot (state : engine_state) (conn : conn_ptr) (c : conn_t) (enter : Int)
    (r : engine_state × conn_t) (h : queue_accept state conn c enter = .ok r) :
    state.ring.sq.length < state.ring.entries := by
  by_contra hs
  simp [queue_accept, io_uring_get_sqe, hs, io_uring_prep_accept, sqe_store, bind,
    Except.bind] at h

/-- A call of `queue_read` that returns had a free slot. -/
theorem queue_read_slot (state : engine_state) (conn : conn_ptr) (c : conn_t) (enter : Int)
    (r : engine_state × conn_t) (h : queue_read state conn c enter = .ok r) :
    state.ring.sq.length < state.ring.entries := by
  by_contra hs
  simp [queue_read, io_uring_get_sqe, hs, io_uring_prep_read, sqe_store, bind,
    Except.bind] at h

/-- A call of `queue_write` that returns had a free slot and a copy that fits. -/
theorem queue_write_slot (state : engine_state) (conn : conn_ptr) (c : conn_t)
    (data : Nat → Byte) (len : Int) (enter : Int)
    (r : engine_state × conn_t) (h : queue_write state conn c data len enter = .ok r) :
    state.ring.sq.length < state.ring.entries ∧
      size_t_of_int (clamp_len len) ≤ BUFFER_SIZE := by
  constructor
  · by_contra hs
    by_cases hn : size_t_of_int (clamp_len len) ≤ BUFFER_SIZE <;>
    simp [queue_write, io_uring_get_sqe, hs, memcpy, hn, io_uring_prep_write, sqe_store, bind,
      Except.bind] at h
  · by_contra hn
    simp [queue_write, memcpy, hn, bind, Except.bind] at h

/-- A copy of more than `BUFFER_SIZE` bytes is an out-of-bounds fault of `queue_write`. -/
theorem queue_write_copy_fault (state : engine_state) (conn : conn_ptr) (c : conn_t)
    (data : Nat → Byte) (len : Int) (enter : Int)
    (hn : BUFFER_SIZE < size_t_of_int (clamp_len len)) :
    queue_write state conn c data len enter = .error Fault.out_of_bounds := by
  have hn' : ¬ size_t_of_int (clamp_len len) ≤ BUFFER_SIZE := by omega
  simp [queue_write, memcpy, hn', bind, Except.bind]

/-- Without a free slot `queue_accept` dereferences the null slot. -/
theorem queue_accept_no_slot (state : engine_state) (conn : conn_ptr) (c : conn_t)
    (enter : Int) (hs : ¬ state.ring.sq.length < state.ring.entries) :
    queue_accept state conn c enter = .error Fault.null_deref := by
  simp [queue_accept, io_uring_get_sqe, hs, io_uring_prep_accept, sqe_store, bind,
    Except.bind]

/-- Without a free slot `queue_read` dereferences the null slot. -/
theorem queue_read_no_slot (state : engine_state) (conn : conn_ptr) (c : conn_t)
    (enter : Int) (hs : ¬ state.ring.sq.length < state.ring.entries) :
    queue_read state conn c enter = .error Fault.null_deref := by
  simp [queue_read, io_uring_get_sqe, hs, io_uring_prep_read, sqe_store, bind,
    Except.bind]

/-- Without a free slot `queue_write` dereferences the null slot. -/
theorem queue_write_no_slot (state : engine_state) (conn : conn_ptr) (c : conn_t)
    (data : Nat → Byte) (len : Int) (enter : Int) (hlen : 0 ≤ len)
    (hs : ¬ state.ring.sq.length < state.ring.entries) :
    queue_write state conn c data len enter = .error Fault.null_deref := by
  have hn : size_t_of_int (clamp_len len) ≤ BUFFER_SIZE := by
    rw [(clamp_len_nonneg len hlen).1]; exact Nat.min_le_right _ _
  simp [queue_write, io_uring_get_sqe, hs, memcpy, hn, io_uring_prep_write, sqe_store, bind,
    Except.bind]

/-- Polling an empty completion queue. -/
theorem poll_completion_empty (state : engine_state) (res : Int) (h : state.ring.cq = []) :
    poll_completion state res = .ok (NULL, res, state) := by
  simp [poll_completion, io_uring_peek_cqe, h, EAGAIN]

/-- Polling a completion queue with an entry at its head. -/
theorem poll_completion_head (state : engine_state) (res : Int) (c : io_uring_cqe)
    (rest : List io_uring_cqe) (h : state.ring.cq = c :: rest) :
    poll_completion state res =
      .ok (c.user_data, c.res, { state with ring := { state.ring with cq := rest } }) := by
  simp [poll_completion, io_uring_peek_cqe, h, io_uring_cqe_get_data, io_uring_cqe_seen]

/-! ## The tag of a submission through the ring -/

/-- A completion never changes the kind a record is marked with. -/
theorem kernel_effect_type (heap : conn_ptr → conn_t) (op : Option uring_op) (res : Int)
    (payload : Nat → Byte) (peer : sockaddr_in) (p : conn_ptr) :
    (kernel_effect heap op res payload peer p).type = (heap p).type := by
  unfold kernel_effect
  split
  · split
    · rename_i buf _ _ _
      by_cases hp : p = buf
      · subst hp; simp
      · simp [Function.update_noteq hp]
    · rfl
  · split
    · rename_i addr addrlen _ _
      by_cases hp : p = addrlen
      · subst hp
        by_cases hq : p = addr
        · subst hq; simp
        · simp [Function.update_noteq hq]
      · by_cases hq : p = addr
        · subst hq; simp [Function.update_noteq hp]
        · simp [Function.update_noteq hp, Function.update_noteq hq]
    · rfl
  · rfl

/-- The shape of a submission that returns: one entry, numbered with the tail
counter and tagged with the record, went through `io_uring_submit`, and the
record is marked with the kind of the call. -/
theorem step_submission (w w1 : World) (a : Action) (r : conn_ptr) (k : op_type)
    (ha : a.submission = some (r, k)) (hstep : step w a = .ok w1) :
    ∃ e c1 enter, a.answer = some enter ∧ e.seq = w.state.ring.sqe_tail ∧ e.user_data = r ∧
      c1.type = k ∧ w1.state.ring = ring_after w.state.ring e enter ∧
      w1.heap = Function.update w.heap r c1 := by
  cases a with
  | accept conn enter =>
    simp only [Action.submission, Option.some.injEq, Prod.mk.injEq] at ha
    obtain ⟨rfl, rfl⟩ := ha
    cases hq : queue_accept w.state conn (w.heap conn) enter with
    | error f => simp [step, hq, bind, Except.bind] at hstep
    | ok res =>
      have hs := queue_accept_slot _ _ _ _ _ hq
      simp only [step, queue_accept_ok _ _ _ _ hs, bind, Except.bind, pure, Except.pure,
        Except.ok.injEq] at hstep
      subst hstep
      exact ⟨_, _, enter, rfl, rfl, rfl, rfl, rfl, rfl⟩
  | read conn enter =>
    simp only [Action.submission, Option.some.injEq, Prod.mk.injEq] at ha
    obtain ⟨rfl, rfl⟩ := ha
    cases hq : queue_read w.state conn (w.heap conn) enter with
    | error f => simp [step, hq, bind, Except.bind] at hstep
    | ok res =>
      have hs := queue_read_slot _ _ _ _ _ hq
      simp only [step, queue_read_ok _ _ _ _ hs, bind, Except.bind, pure, Except.pure,
        Except.ok.injEq] at hstep
      subst hstep
      exact ⟨_, _, enter, rfl, rfl, rfl, rfl, rfl, rfl⟩
  | write conn data len enter =>
    simp only [Action.submission, Option.some.injEq, Prod.mk.injEq] at ha
    obtain ⟨rfl, rfl⟩ := ha
    cases hq : queue_write w.state conn (w.heap conn) data len enter with
    | error f => simp [step, hq, bind, Except.bind] at hstep
    | ok res =>
      obtain ⟨hs, hb⟩ := queue_write_slot _ _ _ _ _ _ _ hq
      simp only [step, queue_write_ok _ _ _ _ _ _ hs hb, bind, Except.bind, pure, Except.pure,
        Except.ok.injEq] at hstep
      subst hstep
      exact ⟨_, _, enter, rfl, rfl, rfl, rfl, rfl, rfl⟩
  | complete i res payload peer => simp [Action.submission] at ha
  | poll res => simp [Action.submission] at ha
  | store_fd conn fd => simp [Action.submission] at ha

/-- A submission establishes the tag of its own sequence number. -/
theorem tagged_submit (w0 w1 : World) (a : Action) (r : conn_ptr) (k : op_type)
    (hwf : ring_wf w0.state.ring) (ha : a.submission = some (r, k))
    (hstep : step w0 a = .ok w1) : tagged w0.state.ring.sqe_tail r k w1 := by
  obtain ⟨hsq, hin, hcq⟩ := hwf
  obtain ⟨e, c1, enter, _, hseq, hud, hty, hring, hheap⟩ := step_submission w0 w1 a r k ha hstep
  obtain ⟨htail, hcq1, _⟩ := ring_after_fields w0.state.ring e enter
  refine ⟨by rw [hring, htail]; omega, ?_, ?_, ?_, by rw [hheap]; simpa using hty⟩
  · intro x hx hn
    rw [hring] at hx
    rcases ring_after_sq_mem _ _ _ _ hx with hx | hx
    · have := hsq x hx; omega
    · subst hx; exact hud
  · intro x hx hn
    rw [hring] at hx
    rcases ring_after_inflight_mem _ _ _ _ hx with hx | hx | hx
    · have := hin x hx; omega
    · have := hsq x hx; omega
    · subst hx; exact hud
  · intro c hc hn
    rw [hring, hcq1] at hc
    have := hcq c hc
    omega

/-- After a submission the operation is on the ring, tagged with the record. -/
theorem submit_on_ring (w0 w1 : World) (a : Action) (r : conn_ptr) (k : op_type)
    (ha : a.submission = some (r, k)) (hstep : step w0 a = .ok w1) :
    ∃ e, (e ∈ w1.state.ring.inflight ∨ e ∈ w1.state.ring.sq) ∧
      e.seq = w0.state.ring.sqe_tail ∧ e.user_data = r := by
  obtain ⟨e, c1, enter, _, hseq, hud, _, hring, _⟩ := step_submission w0 w1 a r k ha hstep
  refine ⟨e, ?_, hseq, hud⟩
  have h := ring_after_on_ring w0.state.ring e enter
  have hmem : e ∈ (ring_after w0.state.ring e enter).inflight ++
      (ring_after w0.state.ring e enter).sq := by
    rw [h]; simp
  rw [hring]
  simpa using hmem

/-- After a submission the kernel took whole, the kernel holds the operation,
tagged with the record. -/
theorem submit_inflight (w0 w1 : World) (a : Action) (r : conn_ptr) (k : op_type)
    (enter : Int) (ha : a.submission = some (r, k)) (hans : a.answer = some enter)
    (hacc : (w0.state.ring.sq.length : Int) < enter) (hstep : step w0 a = .ok w1) :
    ∃ e ∈ w1.state.ring.inflight, e.seq = w0.state.ring.sqe_tail ∧ e.user_data = r := by
  obtain ⟨e, c1, enter1, hans1, hseq, hud, _, hring, _⟩ := step_submission w0 w1 a r k ha hstep
  have he : enter1 = enter := by
    rw [hans] at hans1
    exact (Option.some.inj hans1).symm
  subst he
  refine ⟨e, ?_, hseq, hud⟩
  rw [hring, (ring_after_accepted w0.state.ring e enter1 hacc).2]
  simp

/-- An action that is not a submission for `r` keeps the tag. -/
theorem tagged_step (n : Nat) (r : conn_ptr) (k : op_type) (w w1 : World) (a : Action)
    (hinv : tagged n r k w) (hno : ∀ k1, a.submission ≠ some (r, k1))
    (hstep : step w a = .ok w1) : tagged n r k w1 := by
  obtain ⟨htail, hsq, hin, hcq, hty⟩ := hinv
  have hsub : ∀ conn k1, a.submission = some (conn, k1) → tagged n r k w1 := by
    intro conn k1 ha
    have hne : r ≠ conn := fun h => hno k1 (by rw [ha, h])
    obtain ⟨e, c1, enter, _, hseq, _, _, hring, hheap⟩ :=
      step_submission w w1 a conn k1 ha hstep
    obtain ⟨htail1, hcq1, _⟩ := ring_after_fields w.state.ring e enter
    refine ⟨by rw [hring, htail1]; omega, ?_, ?_, ?_, ?_⟩
    · intro x hx hn
      rw [hring] at hx
      rcases ring_after_sq_mem _ _ _ _ hx with hx | hx
      · exact hsq x hx hn
      · subst hx; omega
    · intro x hx hn
      rw [hring] at hx
      rcases ring_after_inflight_mem _ _ _ _ hx with hx | hx | hx
      · exact hin x hx hn
      · exact hsq x hx hn
      · subst hx; omega
    · intro c hc hn
      rw [hring, hcq1] at hc
      exact hcq c hc hn
    · rw [hheap, Function.update_noteq hne]; exact hty
  cases a with
  | accept conn enter => exact hsub conn op_type.ACCEPT rfl
  | read conn enter => exact hsub conn op_type.READ rfl
  | write conn data len enter => exact hsub conn op_type.WRITE rfl
  | complete i res payload peer =>
    simp only [step, pure, Except.pure, Except.ok.injEq] at hstep
    subst hstep
    unfold kernel_complete
    cases hg : w.state.ring.inflight.get? i with
    | none => exact ⟨htail, hsq, hin, hcq, hty⟩
    | some e =>
      have hmem : e ∈ w.state.ring.inflight := List.get?_mem hg
      refine ⟨htail, hsq, ?_, ?_, ?_⟩
      · intro e1 he1 hn
        exact hin e1 (List.mem_of_mem_eraseIdx he1) hn
      · intro c hc hn
        simp only [List.mem_append, List.mem_singleton] at hc
        rcases hc with hc | hc
        · exact hcq c hc hn
        · subst hc; exact hin e hmem hn
      · simpa [kernel_effect_type] using hty
  | poll res =>
    cases hq : poll_completion w.state res with
    | error f => simp [step, hq, bind, Except.bind] at hstep
    | ok out =>
      simp only [step, hq, bind, Except.bind, pure, Except.pure, Except.ok.injEq] at hstep
      subst hstep
      cases hc : w.state.ring.cq with
      | nil =>
        rw [poll_completion_empty _ _ hc] at hq
        simp only [Except.ok.injEq] at hq
        subst hq
        exact ⟨htail, hsq, hin, hcq, hty⟩
      | cons c rest =>
        rw [poll_completion_head _ _ c rest hc] at hq
        simp only [Except.ok.injEq] at hq
        subst hq
        refine ⟨htail, hsq, hin, ?_, hty⟩
        intro c1 hc1 hn
        exact hcq c1 (by rw [hc]; exact List.mem_cons_of_mem _ hc1) hn
  | store_fd conn fd =>
    simp only [step, pure, Except.pure, Except.ok.injEq] at hstep
    subst hstep
    refine ⟨htail, hsq, hin, hcq, ?_⟩
    by_cases hp : r = conn
    · subst hp; simpa using hty
    · simpa [Function.update_noteq hp] using hty

/-- A run without a submission for `r` keeps the tag. -/
theorem tagged_run (n : Nat) (r : conn_ptr) (k : op_type) (acts : List Action) :
    ∀ (w w1 : World), tagged n r k w → (∀ a ∈ acts, ∀ k1, a.submission ≠ some (r, k1)) →
      run w acts = .ok w1 → tagged n r k w1 := by
  induction acts with
  | nil =>
    intro w w1 hinv _ hrun
    simp only [run, pure, Except.pure, Except.ok.injEq] at hrun
    subst hrun; exact hinv
  | cons a as ih =>
    intro w w1 hinv hno hrun
    cases hs : step w a with
    | error f => simp [run, hs, bind, Except.bind] at hrun
    | ok w2 =>
      simp only [run, hs, bind, Except.bind] at hrun
      exact ih w2 w1 (tagged_step n r k w w2 a hinv (hno a (List.mem_cons_self _ _)) hs)
        (fun b hb => hno b (List.mem_cons_of_mem _ hb)) hrun

/-- The ring that a successful `io_uring_queue_init` sets up is well formed. -/
theorem ring_wf_queue_init (env : SysEnv) (entries : Nat) (ring : io_uring) (flags : Nat)
    (h : 0 ≤ env.queue_init entries) :
    ring_wf (io_uring_queue_init env entries ring flags).2 := by
  have h1 : ¬ env.queue_init entries < 0 := by omega
  simp [io_uring_queue_init, h1, ring_wf]

/-- Every action keeps the ring well formed. -/
theorem ring_wf_step (w w1 : World) (a : Action) (hwf : ring_wf w.state.ring)
    (hstep : step w a = .ok w1) : ring_wf w1.state.ring := by
  obtain ⟨hsq, hin, hcq⟩ := hwf
  have hsub : ∀ conn k1, a.submission = some (conn, k1) → ring_wf w1.state.ring := by
    intro conn k1 ha
    obtain ⟨e, c1, enter, _, hseq, _, _, hring, _⟩ := step_submission w w1 a conn k1 ha hstep
    obtain ⟨htail1, hcq1, _⟩ := ring_after_fields w.state.ring e enter
    rw [hring]
    refine ⟨?_, ?_, ?_⟩
    · intro x hx
      rw [htail1]
      rcases ring_after_sq_mem _ _ _ _ hx with hx | hx
      · have := hsq x hx; omega
      · subst hx; omega
    · intro x hx
      rw [htail1]
      rcases ring_after_inflight_mem _ _ _ _ hx with hx | hx | hx
      · have := hin x hx; omega
      · have := hsq x hx; omega
      · subst hx; omega
    · intro c hc
      rw [hcq1] at hc
      rw [htail1]
      have := hcq c hc
      omega
  cases a with
  | accept conn enter => exact hsub conn op_type.ACCEPT rfl
  | read conn enter => exact hsub conn op_type.READ rfl
  | write conn data len enter => exact hsub conn op_type.WRITE rfl
  | complete i res payload peer =>
    simp only [step, pure, Except.pure, Except.ok.injEq] at hstep
    subst hstep
    unfold kernel_complete
    cases hg : w.state.ring.inflight.get? i with
    | none => exact ⟨hsq, hin, hcq⟩
    | some e =>
      have hmem : e ∈ w.state.ring.inflight := List.get?_mem hg
      refine ⟨hsq, ?_, ?_⟩
      · intro e1 he1
        exact hin e1 (List.mem_of_mem_eraseIdx he1)
      · intro c hc
        simp only [List.mem_append, List.mem_singleton] at hc
        rcases hc with hc | hc
        · exact hcq c hc
        · subst hc; exact hin e hmem
  | poll res =>
    cases hq : poll_completion w.state res with
    | error f => simp [step, hq, bind, Except.bind] at hstep
    | ok out =>
      simp only [step, hq, bind, Except.bind, pure, Except.pure, Except.ok.injEq] at hstep
      subst hstep
      cases hc : w.state.ring.cq with
      | nil =>
        rw [poll_completion_empty _ _ hc] at hq
        simp only [Except.ok.injEq] at hq
        subst hq
        exact ⟨hsq, hin, hcq⟩
      | cons c rest =>
        rw [poll_completion_head _ _ c rest hc] at hq
        simp only [Except.ok.injEq] at hq
        subst hq
        refine ⟨hsq, hin, ?_⟩
        intro c1 hc1
        exact hcq c1 (by rw [hc]; exact List.mem_cons_of_mem _ hc1)
  | store_fd conn fd =>
    simp only [step, pure, Except.pure, Except.ok.injEq] at hstep
    subst hstep
    exact ⟨hsq, hin, hcq⟩

/-! ## Initialisation -/

/-- When `init_engine` returns, every step of the socket setup has succeeded
and the engine holds the socket. -/
theorem init_engine_socket_ready (env : SysEnv) (port queue_depth : Int) (st : engine_state)
    (h : init_engine env port queue_depth = .returned st) :
    0 ≤ env.socket ∧ env.setsockopt_reuseaddr env.socket = 0 ∧
      env.setsockopt_reuseport env.socket = 0 ∧
      0 ≤ env.bind env.socket (htons port) ∧ 0 ≤ env.listen env.socket 4096 ∧
      st.server_fd = env.socket := by
  unfold init_engine setup_server_socket at h
  by_cases h1 : env.socket < 0
  · simp [h1] at h
  by_cases h2 : env.setsockopt_reuseaddr env.socket = 0
  swap
  · simp [h1, h2] at h
  by_cases h3 : env.setsockopt_reuseport env.socket = 0
  swap
  · simp [h1, h2, h3] at h
  by_cases h4 : env.bind env.socket (htons port) < 0
  · simp [h1, h2, h3, h4] at h
  by_cases h5 : env.listen env.socket 4096 < 0
  · simp [h1, h2, h3, h4, h5] at h
  simp only [h1, h2, h3, h4, h5, if_false, ne_eq, not_true_eq_false] at h
  cases hm : env.malloc with
  | none => simp [hm] at h
  | some s =>
    simp only [hm, Outcome.returned.injEq] at h
    subst h
    exact ⟨by omega, h2, h3, by omega, by omega, rfl⟩

/-- A failure of `io_uring_queue_init` does not stop `init_engine`: the engine
is returned with the ring memory as `malloc` delivered it. -/
theorem init_engine_ring_unchecked (env : SysEnv) (port queue_depth fd : Int)
    (st : engine_state) (hsock : setup_server_socket env port = .returned fd)
    (hm : env.malloc = some st) (hrc : env.queue_init (unsigned_of_int queue_depth) < 0) :
    init_engine env port queue_depth = .returned { ring := st.ring, server_fd := fd } := by
  simp [init_engine, hsock, hm, io_uring_queue_init, hrc]

/-! # The engine's contract -/

/-- C1: for a length `0 ≤ len`, `queue_write` on a ring with a free slot copies
exactly `n = min len 2048` bytes: the first `n` bytes of `data` go to positions
`0 .. n-1` of the record's buffer, positions `n .. 2047` and the record's `fd`
are unchanged, and the operation it puts on the ring and submits is a write of
exactly `n` bytes from the record's buffer to the record's `fd`. The call
returns normally also when `len > 2048`: the truncation is silent. Whatever the
kernel answers to the submission the operation is on the ring behind the
earlier ones; when the kernel takes what is queued, it holds the operation and
nothing stays queued. -/
theorem queue_write_copies_first_bytes (state : engine_state) (conn : conn_ptr) (c : conn_t)
    (data : Nat → Byte) (len : Int) (enter : Int) (hlen : 0 ≤ len)
    (hslot : state.ring.sq.length < state.ring.entries) :
    ∃ state1 c1, queue_write state conn c data len enter = .ok (state1, c1) ∧
      size_t_of_int (clamp_len len) = min len.toNat BUFFER_SIZE ∧
      (∀ i : Fin BUFFER_SIZE, i.val < min len.toNat BUFFER_SIZE → c1.buffer i = data i.val) ∧
      (∀ i : Fin BUFFER_SIZE, min len.toNat BUFFER_SIZE ≤ i.val → c1.buffer i = c.buffer i) ∧
      c1.fd = c.fd ∧
      state1.ring.inflight ++ state1.ring.sq = state.ring.inflight ++ (state.ring.sq ++
        [{ op := some (uring_op.write c.fd conn (min len.toNat BUFFER_SIZE) 0)
           user_data := conn
           seq := state.ring.sqe_tail }]) ∧
      ((state.ring.sq.length : Int) < enter →
        state1.ring.sq = [] ∧
        state1.ring.inflight = state.ring.inflight ++ (state.ring.sq ++
          [{ op := some (uring_op.write c.fd conn (min len.toNat BUFFER_SIZE) 0)
             user_data := conn
             seq := state.ring.sqe_tail }])) := by
  obtain ⟨h1, h2⟩ := clamp_len_nonneg len hlen
  have hn : size_t_of_int (clamp_len len) ≤ BUFFER_SIZE := by
    rw [h1]; exact Nat.min_le_right _ _
  refine ⟨_, _, queue_write_ok state conn c data len enter hslot hn, h1, ?_, ?_, rfl, ?_, ?_⟩
  · intro i hi
    simp [h1, hi]
  · intro i hi
    have : ¬ i.val < min len.toNat BUFFER_SIZE := by omega
    simp [h1, this]
  · rw [← h2]; exact ring_after_on_ring _ _ _
  · intro hacc
    rw [← h2]; exact ring_after_accepted _ _ _ hacc

theorem queue_write_copies_first_bytes_witness :
    ∃ state1 c1, queue_write sample_state 64 sample_conn sample_data 4 1 = .ok (state1, c1) ∧
      size_t_of_int (clamp_len 4) = min (4 : Int).toNat BUFFER_SIZE ∧
      (∀ i : Fin BUFFER_SIZE, i.val < min (4 : Int).toNat BUFFER_SIZE →
        c1.buffer i = sample_data i.val) ∧
      (∀ i : Fin BUFFER_SIZE, min (4 : Int).toNat BUFFER_SIZE ≤ i.val →
        c1.buffer i = sample_conn.buffer i) ∧
      c1.fd = sample_conn.fd ∧
      state1.ring.inflight ++ state1.ring.sq =
        sample_state.ring.inflight ++ (sample_state.ring.sq ++
        [{ op := some (uring_op.write sample_conn.fd 64 (min (4 : Int).toNat BUFFER_SIZE) 0)
           user_data := 64
           seq := sample_state.ring.sqe_tail }]) ∧
      ((sample_state.ring.sq.length : Int) < 1 →
        state1.ring.sq = [] ∧
        state1.ring.inflight = sample_state.ring.inflight ++ (sample_state.ring.sq ++
          [{ op := some (uring_op.write sample_conn.fd 64 (min (4 : Int).toNat BUFFER_SIZE) 0)
             user_data := 64
             seq := sample_state.ring.sqe_tail }])) :=
  queue_write_copies_first_bytes sample_state 64 sample_conn sample_data 4 1
    (by decide) (by decide)

/-- C2: for a length above the capacity 2048, `queue_write` on a ring with a
free slot copies exactly 2048 bytes, so the copy stays inside the record's
buffer (it is not an out-of-bounds fault); the fields of the record that follow
or precede the buffer (`fd`, `addr`, `addr_len`) are unchanged, and the write it
puts on the ring and submits has length 2048, not more. Whatever the kernel
answers to the submission that write is on the ring behind the earlier
operations; when the kernel takes what is queued, it holds the write. -/
theorem queue_write_oversized_in_bounds (state : engine_state) (conn : conn_ptr) (c : conn_t)
    (data : Nat → Byte) (len : Int) (enter : Int) (hlen : (BUFFER_SIZE : Int) < len)
    (hslot : state.ring.sq.length < state.ring.entries) :
    ∃ state1 c1, queue_write state conn c data len enter = .ok (state1, c1) ∧
      size_t_of_int (clamp_len len) = BUFFER_SIZE ∧
      memcpy c.buffer data (size_t_of_int (clamp_len len)) = .ok c1.buffer ∧
      (∀ i : Fin BUFFER_SIZE, c1.buffer i = data i.val) ∧
      c1.fd = c.fd ∧ c1.addr = c.addr ∧ c1.addr_len = c.addr_len ∧
      unsigned_of_int (clamp_len len) ≤ BUFFER_SIZE ∧
      state1.ring.inflight ++ state1.ring.sq = state.ring.inflight ++ (state.ring.sq ++
        [{ op := some (uring_op.write c.fd conn BUFFER_SIZE 0)
           user_data := conn
           seq := state.ring.sqe_tail }]) ∧
      ((state.ring.sq.length : Int) < enter →
        state1.ring.inflight = state.ring.inflight ++ (state.ring.sq ++
          [{ op := some (uring_op.write c.fd conn BUFFER_SIZE 0)
             user_data := conn
             seq := state.ring.sqe_tail }])) := by
  have hpos : 0 ≤ len := by have : (0 : Int) ≤ (BUFFER_SIZE : Int) := by decide
                            omega
  obtain ⟨h1, h2⟩ := clamp_len_nonneg len hpos
  have hmin : min len.toNat BUFFER_SIZE = BUFFER_SIZE := by
    apply Nat.min_eq_right; omega
  rw [hmin] at h1 h2
  have hn : size_t_of_int (clamp_len len) ≤ BUFFER_SIZE := by omega
  refine ⟨_, _, queue_write_ok state conn c data len enter hslot hn, h1, ?_, ?_, rfl, rfl, rfl,
    by omega, ?_, ?_⟩
  · simp [memcpy, h1]
  · intro i
    simp [h1, i.isLt]
  · rw [← h2]; exact ring_after_on_ring _ _ _
  · intro hacc
    rw [← h2]; exact (ring_after_accepted _ _ _ hacc).2

theorem queue_write_oversized_in_bounds_witness :
    ∃ state1 c1, queue_write sample_state 64 sample_conn sample_data 5000 1 = .ok (state1, c1) ∧
      size_t_of_int (clamp_len 5000) = BUFFER_SIZE ∧
      memcpy sample_conn.buffer sample_data (size_t_of_int (clamp_len 5000)) = .ok c1.buffer ∧
      (∀ i : Fin BUFFER_SIZE, c1.buffer i = sample_data i.val) ∧
      c1.fd = sample_conn.fd ∧ c1.addr = sample_conn.addr ∧
      c1.addr_len = sample_conn.addr_len ∧
      unsigned_of_int (clamp_len 5000) ≤ BUFFER_SIZE ∧
      state1.ring.inflight ++ state1.ring.sq =
        sample_state.ring.inflight ++ (sample_state.ring.sq ++
        [{ op := some (uring_op.write sample_conn.fd 64 BUFFER_SIZE 0)
           user_data := 64
           seq := sample_state.ring.sqe_tail }]) ∧
      ((sample_state.ring.sq.length : Int) < 1 →
        state1.ring.inflight = sample_state.ring.inflight ++ (sample_state.ring.sq ++
          [{ op := some (uring_op.write sample_conn.fd 64 BUFFER_SIZE 0)
             user_data := 64
             seq := sample_state.ring.sqe_tail }])) :=
  queue_write_oversized_in_bounds sample_state 64 sample_conn sample_data 5000 1
    (by decide) (by decide)

/-- C3 (the code at a ring without a free slot): a read submitted on a ring of
one slot that the kernel refuses with `-EBUSY` returns with the entry still
queued; in that state `io_uring_get_sqe` yields a null pointer, and
`queue_accept`, `queue_read` and `queue_write` each go on to prepare the
operation through it, whatever the kernel would answer: a null dereference, not
a return that reports the condition. -/
theorem no_slot_null_deref :
    queue_read one_slot_state 64 sample_conn (-EBUSY) =
      .ok (full_state, { sample_conn with type := op_type.READ }) ∧
    io_uring_get_sqe full_state.ring = (none, full_state.ring) ∧
    (∀ enter, queue_accept full_state 64 sample_conn enter = .error Fault.null_deref) ∧
    (∀ enter, queue_read full_state 64 sample_conn enter = .error Fault.null_deref) ∧
    (∀ enter, queue_write full_state 64 sample_conn sample_data 4 enter =
      .error Fault.null_deref) :=
  ⟨rfl, rfl, fun _ => queue_accept_no_slot _ _ _ _ (by decide),
    fun _ => queue_read_no_slot _ _ _ _ (by decide),
    fun _ => queue_write_no_slot _ _ _ _ _ _ (by decide) (by decide)⟩

/-- C4 (the code when the ring set-up fails): with every step of the socket
setup succeeding and `io_uring_queue_init` refusing a depth of 0 with `-EINVAL`,
`init_engine` returns an engine all the same, its ring being the memory that
was never set up. -/
theorem init_engine_ignores_ring_failure :
    (io_uring_queue_init sample_env (unsigned_of_int 0) stale_ring 0).1 = -EINVAL ∧
    -EINVAL < 0 ∧
    init_engine sample_env 8080 0 = .returned { ring := stale_ring, server_fd := 3 } :=
  ⟨rfl, by decide, rfl⟩

/-- C5: when the completion queue is empty, `poll_completion` returns `NULL`,
leaves the caller's `*res` as it was, and leaves the engine state (the ring's
submission and completion queues included) unchanged. -/
theorem poll_completion_none (state : engine_state) (res : Int) (h : state.ring.cq = []) :
    poll_completion state res = .ok (NULL, res, state) :=
  poll_completion_empty state res h

theorem poll_completion_none_witness :
    poll_completion sample_state (-7) = .ok (NULL, -7, sample_state) :=
  poll_completion_none sample_state (-7) rfl

/-- C6: when the completion queue is `c :: rest`, `poll_completion` returns the
record tagged on `c`, stores the signed result code of `c` in `*res` whatever
its sign, and consumes that one entry: the completion queue becomes `rest`, the
rest of the engine state is unchanged. -/
theorem poll_completion_one (state : engine_state) (res : Int) (c : io_uring_cqe)
    (rest : List io_uring_cqe) (h : state.ring.cq = c :: rest) :
    ∃ state1, poll_completion state res = .ok (c.user_data, c.res, state1) ∧
      state1.ring.cq = rest ∧
      state1.ring.sq = state.ring.sq ∧
      state1.ring.inflight = state.ring.inflight ∧
      state1.ring.entries = state.ring.entries ∧
      state1.server_fd = state.server_fd :=
  ⟨_, poll_completion_head state res c rest h, rfl, rfl, rfl, rfl, rfl⟩

theorem poll_completion_one_witness :
    ∃ state1, poll_completion pending_state 0 = .ok (64, 4, state1) ∧
      state1.ring.cq = [{ user_data := 128, res := -32, seq := 1 }] ∧
      state1.ring.sq = pending_state.ring.sq ∧
      state1.ring.inflight = pending_state.ring.inflight ∧
      state1.ring.entries = pending_state.ring.entries ∧
      state1.server_fd = pending_state.server_fd :=
  poll_completion_one pending_state 0 { user_data := 64, res := 4, seq := 0 }
    [{ user_data := 128, res := -32, seq := 1 }] rfl

/-- C7, as stated, fails: on a freshly set-up ring of one slot (a slot is free,
nothing is left unsubmitted) a `queue_read` whose submission the kernel refuses
with `-EBUSY` returns with the entry still queued and nothing handed to the
kernel; so it is not true that every such call leaves no entry queued and one
more operation in the kernel's hands. -/
theorem submission_refused_stays_queued :
    one_slot_state.ring.sq = [] ∧ 0 < one_slot_state.ring.entries ∧
    (∃ state1 c1, queue_read one_slot_state 64 sample_conn (-EBUSY) = .ok (state1, c1) ∧
      state1.ring.sq.length = 1 ∧ state1.ring.inflight = one_slot_state.ring.inflight) ∧
    ¬ (∀ (state : engine_state) (conn : conn_ptr) (c : conn_t) (enter : Int),
        state.ring.sq = [] → 0 < state.ring.entries →
        ∃ state1 c1, queue_read state conn c enter = .ok (state1, c1) ∧
          state1.ring.sq = [] ∧
          state1.ring.inflight.length = state.ring.inflight.length + 1) := by
  have hrun : queue_read one_slot_state 64 sample_conn (-EBUSY) =
      .ok (full_state, { sample_conn with type := op_type.READ }) := rfl
  refine ⟨rfl, by decide, ⟨_, _, hrun, rfl, rfl⟩, ?_⟩
  intro h
  obtain ⟨state1, c1, hq, hsq, _⟩ := h one_slot_state 64 sample_conn (-EBUSY) rfl (by decide)
  rw [hrun] at hq
  simp only [Except.ok.injEq, Prod.mk.injEq] at hq
  rw [← hq.1] at hsq
  exact absurd hsq (by decide)

/-- C7, amended: in an engine state with a free slot and nothing left
unsubmitted, each of `queue_accept`, `queue_read` and `queue_write` (the latter
for a length `0 ≤ len`) puts exactly one operation on the ring, tagged with the
given record, and submits within the call; when the kernel accepts the
submission (it takes at least one entry), the operations it holds after the
call are the previous ones followed by the new one, their number has grown by
exactly one, and no entry is left queued and unsubmitted. -/
theorem submission_flushes_one (state : engine_state) (conn : conn_ptr) (c : conn_t)
    (data : Nat → Byte) (len : Int) (enter : Int)
    (hflushed : state.ring.sq = []) (hslot : 0 < state.ring.entries) (hlen : 0 ≤ len) :
    (∃ state1 c1 e, queue_accept state conn c enter = .ok (state1, c1) ∧
      e.op = some (uring_op.accept state.server_fd conn conn 0) ∧ e.user_data = conn ∧
      state1.ring.inflight ++ state1.ring.sq = state.ring.inflight ++ [e] ∧
      (0 < enter →
        state1.ring.inflight = state.ring.inflight ++ [e] ∧
        state1.ring.inflight.length = state.ring.inflight.length + 1 ∧
        state1.ring.sq = [])) ∧
    (∃ state1 c1 e, queue_read state conn c enter = .ok (state1, c1) ∧
      e.op = some (uring_op.read c.fd conn (BUFFER_SIZE - 1) 0) ∧ e.user_data = conn ∧
      state1.ring.inflight ++ state1.ring.sq = state.ring.inflight ++ [e] ∧
      (0 < enter →
        state1.ring.inflight = state.ring.inflight ++ [e] ∧
        state1.ring.inflight.length = state.ring.inflight.length + 1 ∧
        state1.ring.sq = [])) ∧
    (∃ state1 c1 e, queue_write state conn c data len enter = .ok (state1, c1) ∧
      e.op = some (uring_op.write c.fd conn (min len.toNat BUFFER_SIZE) 0) ∧
      e.user_data = conn ∧
      state1.ring.inflight ++ state1.ring.sq = state.ring.inflight ++ [e] ∧
      (0 < enter →
        state1.ring.inflight = state.ring.inflight ++ [e] ∧
        state1.ring.inflight.length = state.ring.inflight.length + 1 ∧
        state1.ring.sq = [])) := by
  have hs : state.ring.sq.length < state.ring.entries := by simpa [hflushed] using hslot
  obtain ⟨h1, h2⟩ := clamp_len_nonneg len hlen
  have hn : size_t_of_int (clamp_len len) ≤ BUFFER_SIZE := by
    rw [h1]; exact Nat.min_le_right _ _
  have key : ∀ e : io_uring_sqe,
      (ring_after state.ring e enter).inflight ++ (ring_after state.ring e enter).sq =
        state.ring.inflight ++ [e] ∧
      (0 < enter →
        (ring_after state.ring e enter).inflight = state.ring.inflight ++ [e] ∧
        (ring_after state.ring e enter).inflight.length = state.ring.inflight.length + 1 ∧
        (ring_after state.ring e enter).sq = []) := by
    intro e
    constructor
    · rw [ring_after_on_ring, hflushed]; rfl
    · intro hpos
      have hacc : (state.ring.sq.length : Int) < enter := by simpa [hflushed] using hpos
      obtain ⟨ha, hb⟩ := ring_after_accepted state.ring e enter hacc
      rw [hflushed] at hb
      simp only [List.nil_append] at hb
      exact ⟨hb, by rw [hb]; simp, ha⟩
  have hw := queue_write_ok state conn c data len enter hs hn
  rw [h2] at hw
  exact ⟨⟨_, _, { op := some (uring_op.accept state.server_fd conn conn 0), user_data := conn,
                   seq := state.ring.sqe_tail },
      queue_accept_ok state conn c enter hs, rfl, rfl, key _⟩,
    ⟨_, _, { op := some (uring_op.read c.fd conn (BUFFER_SIZE - 1) 0), user_data := conn,
             seq := state.ring.sqe_tail },
      queue_read_ok state conn c enter hs, rfl, rfl, key _⟩,
    ⟨_, _, { op := some (uring_op.write c.fd conn (min len.toNat BUFFER_SIZE) 0),
             user_data := conn, seq := state.ring.sqe_tail },
      hw, rfl, rfl, key _⟩⟩

theorem submission_flushes_one_witness :
    (∃ state1 c1 e, queue_accept sample_state 64 sample_conn 1 = .ok (state1, c1) ∧
      e.op = some (uring_op.accept sample_state.server_fd 64 64 0) ∧ e.user_data = 64 ∧
      state1.ring.inflight ++ state1.ring.sq = sample_state.ring.inflight ++ [e] ∧
      ((0 : Int) < 1 →
        state1.ring.inflight = sample_state.ring.inflight ++ [e] ∧
        state1.ring.inflight.length = sample_state.ring.inflight.length + 1 ∧
        state1.ring.sq = [])) ∧
    (∃ state1 c1 e, queue_read sample_state 64 sample_conn 1 = .ok (state1, c1) ∧
      e.op = some (uring_op.read sample_conn.fd 64 (BUFFER_SIZE - 1) 0) ∧ e.user_data = 64 ∧
      state1.ring.inflight ++ state1.ring.sq = sample_state.ring.inflight ++ [e] ∧
      ((0 : Int) < 1 →
        state1.ring.inflight = sample_state.ring.inflight ++ [e] ∧
        state1.ring.inflight.length = sample_state.ring.inflight.length + 1 ∧
        state1.ring.sq = [])) ∧
    (∃ state1 c1 e, queue_write sample_state 64 sample_conn sample_data 4 1 = .ok (state1, c1) ∧
      e.op = some (uring_op.write sample_conn.fd 64 (min (4 : Int).toNat BUFFER_SIZE) 0) ∧
      e.user_data = 64 ∧
      state1.ring.inflight ++ state1.ring.sq = sample_state.ring.inflight ++ [e] ∧
      ((0 : Int) < 1 →
        state1.ring.inflight = sample_state.ring.inflight ++ [e] ∧
        state1.ring.inflight.length = sample_state.ring.inflight.length + 1 ∧
        state1.ring.sq = [])) :=
  submission_flushes_one sample_state 64 sample_conn sample_data 4 1 rfl (by decide) (by decide)

/-- C8: on a ring with a free slot, `queue_read` marks the record `READ` and
puts on the ring and submits a read from the record's own descriptor into the
start of the record's own buffer, of at most 2047 bytes, at offset 0, tagged
with the record; the record's descriptor, buffer and address fields are as
before. The length 2047 is the same whatever the engine state and the record
hold. Whatever the kernel answers to the submission the read is on the ring
behind the earlier operations; when the kernel takes what is queued, it holds
the read and nothing stays queued. -/
theorem queue_read_request (state : engine_state) (conn : conn_ptr) (c : conn_t) (enter : Int)
    (hslot : state.ring.sq.length < state.ring.entries) :
    ∃ state1 c1, queue_read state conn c enter = .ok (state1, c1) ∧
      c1.type = op_type.READ ∧ c1.fd = c.fd ∧ c1.buffer = c.buffer ∧
      c1.addr = c.addr ∧ c1.addr_len = c.addr_len ∧
      state1.ring.inflight ++ state1.ring.sq = state.ring.inflight ++ (state.ring.sq ++
        [{ op := some (uring_op.read c.fd conn 2047 0)
           user_data := conn
           seq := state.ring.sqe_tail }]) ∧
      ((state.ring.sq.length : Int) < enter →
        state1.ring.inflight = state.ring.inflight ++ (state.ring.sq ++
          [{ op := some (uring_op.read c.fd conn 2047 0)
             user_data := conn
             seq := state.ring.sqe_tail }]) ∧
        state1.ring.sq = []) :=
  ⟨_, _, queue_read_ok state conn c enter hslot, rfl, rfl, rfl, rfl, rfl,
    ring_after_on_ring _ _ _,
    fun hacc => ⟨(ring_after_accepted _ _ _ hacc).2, (ring_after_accepted _ _ _ hacc).1⟩⟩

theorem queue_read_request_witness :
    ∃ state1 c1, queue_read sample_state 64 sample_conn 1 = .ok (state1, c1) ∧
      c1.type = op_type.READ ∧ c1.fd = sample_conn.fd ∧ c1.buffer = sample_conn.buffer ∧
      c1.addr = sample_conn.addr ∧ c1.addr_len = sample_conn.addr_len ∧
      state1.ring.inflight ++ state1.ring.sq =
        sample_state.ring.inflight ++ (sample_state.ring.sq ++
        [{ op := some (uring_op.read sample_conn.fd 64 2047 0)
           user_data := 64
           seq := sample_state.ring.sqe_tail }]) ∧
      ((sample_state.ring.sq.length : Int) < 1 →
        state1.ring.inflight = sample_state.ring.inflight ++ (sample_state.ring.sq ++
          [{ op := some (uring_op.read sample_conn.fd 64 2047 0)
             user_data := 64
             seq := sample_state.ring.sqe_tail }]) ∧
        state1.ring.sq = []) :=
  queue_read_request sample_state 64 sample_conn 1 (by decide)

/-- C9: tag round trip. Let a submission (`queue_accept`, `queue_read` or
`queue_write`) of kind `k` for the record `r` succeed in a world whose ring is
well formed, and let any actions follow (submissions for other records, kernel
completions, polls, stores of a descriptor) none of which is a submission for
`r`. The operation is on the ring tagged `r`, in the kernel's hands when the
kernel took the submission; and when the completion of that very operation is
at the head of the completion queue, `poll_completion` returns `r` with that
completion's result code, and the record `r` is marked with the kind `k`. -/
theorem tag_round_trip (w0 w1 w2 : World) (a : Action) (r : conn_ptr) (k : op_type)
    (acts : List Action) (c : io_uring_cqe) (rest : List io_uring_cqe) (res : Int)
    (hwf : ring_wf w0.state.ring)
    (ha : a.submission = some (r, k))
    (hsub : step w0 a = .ok w1)
    (hno : ∀ b ∈ acts, ∀ k1, b.submission ≠ some (r, k1))
    (hrun : run w1 acts = .ok w2)
    (hcq : w2.state.ring.cq = c :: rest)
    (hseq : c.seq = w0.state.ring.sqe_tail) :
    (∃ e, (e ∈ w1.state.ring.inflight ∨ e ∈ w1.state.ring.sq) ∧
      e.seq = w0.state.ring.sqe_tail ∧ e.user_data = r) ∧
    (∀ enter, a.answer = some enter → (w0.state.ring.sq.length : Int) < enter →
      ∃ e ∈ w1.state.ring.inflight, e.seq = w0.state.ring.sqe_tail ∧ e.user_data = r) ∧
    poll_completion w2.state res =
      .ok (r, c.res, { w2.state with ring := { w2.state.ring with cq := rest } }) ∧
    (w2.heap r).type = k := by
  have h1 := tagged_submit w0 w1 a r k hwf ha hsub
  obtain ⟨_, _, _, hc, hty⟩ := tagged_run _ r k acts w1 w2 h1 hno hrun
  have hr : c.user_data = r := hc c (by rw [hcq]; exact List.mem_cons_self _ _) hseq
  refine ⟨submit_on_ring w0 w1 a r k ha hsub,
    fun enter hans hacc => submit_inflight w0 w1 a r k enter ha hans hacc hsub, ?_, hty⟩
  rw [poll_completion_head w2.state res c rest hcq, hr]

theorem tag_round_trip_witness :
    (∃ e, (e ∈ sample_world_read.state.ring.inflight ∨ e ∈ sample_world_read.state.ring.sq) ∧
      e.seq = sample_world.state.ring.sqe_tail ∧ e.user_data = 64) ∧
    (∀ enter, (Action.read 64 1).answer = some enter →
      (sample_world.state.ring.sq.length : Int) < enter →
      ∃ e ∈ sample_world_read.state.ring.inflight,
        e.seq = sample_world.state.ring.sqe_tail ∧ e.user_data = 64) ∧
    poll_completion sample_world_done.state 0 =
      .ok (64, 4, { sample_world_done.state with
                    ring := { sample_world_done.state.ring with cq := [] } }) ∧
    (sample_world_done.heap 64).type = op_type.READ :=
  tag_round_trip sample_world sample_world_read sample_world_done (Action.read 64 1) 64
    op_type.READ [Action.complete 0 4 sample_data sample_peer]
    { user_data := 64, res := 4, seq := 0 } [] 0
    (by simp [ring_wf, sample_world, sample_state, fresh_ring]) rfl rfl
    (by simp [Action.submission]) rfl rfl rfl

/-- C10 (the code at a negative length): for `len = -1` the clamp leaves the
length as it is, the copy is given `2 ^ 64 - 1` bytes and the write
`2 ^ 32 - 1`, both above 2048, so the bound does not hold for every 32-bit
length; `queue_write` then copies past the end of the record's buffer. -/
theorem queue_write_negative_len :
    size_t_of_int (clamp_len (-1)) = 2 ^ 64 - 1 ∧
    unsigned_of_int (clamp_len (-1)) = 2 ^ 32 - 1 ∧
    ¬ (∀ len : Int, -2 ^ 31 ≤ len → len < 2 ^ 31 →
        size_t_of_int (clamp_len len) ≤ BUFFER_SIZE ∧
        unsigned_of_int (clamp_len len) ≤ BUFFER_SIZE) ∧
    (∀ enter, queue_write sample_state 64 sample_conn sample_data (-1) enter =
      .error Fault.out_of_bounds) := by
  have h1 : size_t_of_int (clamp_len (-1)) = 2 ^ 64 - 1 := by decide
  refine ⟨h1, by decide, ?_,
    fun enter => queue_write_copy_fault _ _ _ _ _ enter (by rw [h1]; decide)⟩
  intro h
  have := (h (-1) (by norm_num) (by norm_num)).1
  rw [h1] at this
  revert this
  decide

end Senciro
